import Mathlib

/-!
Shallow embedding of lightningd/onchain/onchain.c (the on-chain resolution
engine for a single Lightning channel) and proofs about it.

Modelling conventions:
* C machine integers are modelled as Nat; where a C computation can wrap
  (u64 arithmetic assigned to u32 locals in narrow_feerate_range and
  init_feerate_range) the truncation is made explicit with a modulus.
* Bitcoin transactions appear only through their txids and their output
  scripts/amounts; scripts are abstract identifiers (Nat).  The external
  script/key/signature library (sha256, p2wsh wrapping, check_tx_sig,
  sign_tx_input, bitcoin_txid, measure_tx_cost) is out of scope per the
  spec; injective wrappings are modelled as the identity on identifiers and
  signature verification as a boolean oracle on the only datum that varies
  (the fee carved out of the spent output).
* status_failed terminates the subprocess; a function that can call it
  returns an Option (none = the daemon died).
-/

namespace Onchain

/-- Word bound of a C u32. -/
def U32 : Nat := 2 ^ 32

/-- Word bound of a C u64. -/
def U64 : Nat := 2 ^ 64

/-- enum side (LOCAL/REMOTE). -/
inductive side
| LOCAL
| REMOTE
deriving DecidableEq

/-- enum tx_type from onchain_types.h, used for resolution attribution. -/
inductive tx_type
| FUNDING_TRANSACTION
| MUTUAL_CLOSE
| OUR_UNILATERAL
| THEIR_UNILATERAL
| THEIR_REVOKED_UNILATERAL
| OUR_HTLC_TIMEOUT_TO_US
| THEIR_HTLC_TIMEOUT_TO_THEM
| OUR_UNILATERAL_TO_US_RETURN_TO_WALLET
| SELF
| UNKNOWN_TXTYPE
deriving DecidableEq

/-- enum output_type from onchain_types.h: what a tracked output is. -/
inductive output_type
| FUNDING_OUTPUT
| OUTPUT_TO_US
| OUTPUT_TO_THEM
| DELAYED_OUTPUT_TO_US
| DELAYED_OUTPUT_TO_THEM
| OUR_HTLC
| THEIR_HTLC
deriving DecidableEq

/-- struct htlc_stub (wire contract onchain_htlc): cltv_expiry, the
payment-hash ripemd160 (an abstract identifier here) and the owner side. -/
structure htlc_stub where
  cltv_expiry : Nat
  ripemd : Nat
  owner : side
deriving DecidableEq

instance : Inhabited htlc_stub := ⟨⟨0, 0, side.LOCAL⟩⟩

/-- struct proposed_resolution.  The bitcoin tx is modelled by its txid;
tx = none is the "simply ignore it after depth" proposal. -/
structure proposed_resolution where
  tx : Option Nat
  depth_required : Nat
  tx_type : tx_type
deriving DecidableEq

/-- struct resolution: how an output actually got resolved. -/
structure resolution where
  txid : Nat
  depth : Nat
  tx_type : tx_type
deriving DecidableEq

/-- struct tracked_output. -/
structure tracked_output where
  tx_type : tx_type
  txid : Nat
  tx_blockheight : Nat
  outnum : Nat
  satoshi : Nat
  output_type : output_type
  proposal : Option proposed_resolution
  resolved : Option resolution
deriving DecidableEq

instance : Inhabited tracked_output :=
  ⟨⟨tx_type.UNKNOWN_TXTYPE, 0, 0, 0, 0, output_type.FUNDING_OUTPUT, none, none⟩⟩

/-- struct feerate_range: both bounds are u32 sat/kW. -/
structure feerate_range where
  min : Nat
  max : Nat
deriving DecidableEq

/-- new_tracked_output: fresh record, proposal and resolution both NULL. -/
def new_tracked_output (txid tx_blockheight : Nat) (ty : tx_type)
    (outnum satoshi : Nat) (oty : output_type) : tracked_output :=
  ⟨ty, txid, tx_blockheight, outnum, satoshi, oty, none, none⟩

/-- ignore_output: mark resolved by itself (txid = own txid, type SELF, depth 0). -/
def ignore_output (out : tracked_output) : tracked_output :=
  { out with resolved := some ⟨out.txid, 0, tx_type.SELF⟩ }

/-- propose_resolution: attach the proposal record. -/
def propose_resolution (out : tracked_output) (tx : Option Nat)
    (depth_required : Nat) (ty : tx_type) : tracked_output :=
  { out with proposal := some ⟨tx, depth_required, ty⟩ }

/-- propose_resolution_at_block: translate an absolute block to a depth
relative to the originating blockheight, flooring at 0 ("Expiry could be in
the past!"). -/
def propose_resolution_at_block (out : tracked_output) (tx : Option Nat)
    (block_required : Nat) (ty : tx_type) : tracked_output :=
  propose_resolution out tx
    (if block_required < out.tx_blockheight then 0
     else block_required - out.tx_blockheight) ty

/-- resolved_by_other: record a resolution by a known external spend. -/
def resolved_by_other (out : tracked_output) (txid : Nat) (ty : tx_type) :
    tracked_output :=
  { out with resolved := some ⟨txid, 0, ty⟩ }

/-- unknown_spend: someone else took the output; record UNKNOWN_TXTYPE. -/
def unknown_spend (out : tracked_output) (spender : Nat) : tracked_output :=
  { out with resolved := some ⟨spender, 0, tx_type.UNKNOWN_TXTYPE⟩ }

/-- all_irrevocably_resolved, exactly as coded: an output only blocks the
loop if it is resolved AND its resolving depth is below 100.  An output with
no resolution at all does not block it. -/
def all_irrevocably_resolved (outs : List tracked_output) : Bool :=
  outs.all fun o =>
    match o.resolved with
    | some r => ! decide (r.depth < 100)
    | none => true

/-- The spec side of C1: an output counts only when it is resolved at depth
at least 100. -/
def resolved_at_depth100 (o : tracked_output) : Bool :=
  match o.resolved with
  | some r => decide (100 ≤ r.depth)
  | none => false

/-- narrow_feerate_range: recover a feerate interval from an observed fee
(fee = feerate * multiplier / 1000, floor) and only ever clamp the stored
range.  The u64 intermediate and the u32 locals make truncation explicit. -/
def narrow_feerate_range (r : feerate_range) (fee multiplier : Nat) :
    feerate_range :=
  let mx : Nat := (fee + 999) % U64 * 1000 % U64 / multiplier % U32
  let mn : Nat := if fee < 999 then 0 else (fee - 999) * 1000 % U64 / multiplier % U32
  ⟨if r.min < mn then mn else r.min, if mx < r.max then mx else r.max⟩

/-- init_feerate_range: min 0; max from the commitment fee bound
fee = feerate * (724 + 172 * untrimmed) / 1000, with the fee recovered by
u64 subtraction of the output amounts from the funding amount. -/
def init_feerate_range (funding_satoshi : Nat) (amounts : List Nat) :
    feerate_range :=
  let fee := amounts.foldl (fun f a => (f + U64 - a % U64) % U64) (funding_satoshi % U64)
  let max_untrimmed := if amounts.length < 2 then 0 else amounts.length - 2
  ⟨0, (fee + 999) % U64 * 1000 % U64 / (724 + 172 * max_untrimmed) % U32⟩

/-!  Claim C6: propose_resolution_at_block computes
depth_required = max(0, block_required - tx_blockheight). -/

/-- C6: for every tracked output and block_required, the proposal stored by
propose_resolution_at_block has depth_required equal to
max(0, block_required - tx_blockheight); it is 0 when the block is already
past and never negative. -/
theorem c6_propose_at_block_depth (out : tracked_output) (tx : Option Nat)
    (block_required : Nat) (ty : tx_type) :
    ∃ p, (propose_resolution_at_block out tx block_required ty).proposal = some p
      ∧ (p.depth_required : Int)
          = max 0 ((block_required : Int) - (out.tx_blockheight : Int))
      ∧ (block_required < out.tx_blockheight → p.depth_required = 0)
      ∧ 0 ≤ (p.depth_required : Int) := by
  refine ⟨⟨tx, if block_required < out.tx_blockheight then 0
              else block_required - out.tx_blockheight, ty⟩, rfl, ?_, ?_, ?_⟩
  · split <;> rename_i h <;> simp only [max_def] <;> split <;> push_cast <;> omega
  · intro h; simp [h]
  · positivity

/-- Concrete output for the C6 witness: originating blockheight 10. -/
def c6w_out : tracked_output :=
  new_tracked_output 3 10 tx_type.OUR_UNILATERAL 0 5000 output_type.OUR_HTLC

/-- Witness for C6 at a concrete output (blockheight 10, block_required 7:
the expiry is in the past, so depth_required is 0). -/
theorem c6_propose_at_block_depth_witness :
    ∃ p, (propose_resolution_at_block c6w_out (some 9) 7
            tx_type.OUR_HTLC_TIMEOUT_TO_US).proposal = some p
      ∧ (p.depth_required : Int)
          = max 0 ((7 : Int) - (c6w_out.tx_blockheight : Int))
      ∧ (7 < c6w_out.tx_blockheight → p.depth_required = 0)
      ∧ 0 ≤ (p.depth_required : Int) :=
  c6_propose_at_block_depth c6w_out (some 9) 7 tx_type.OUR_HTLC_TIMEOUT_TO_US

/-!  Claim C8: narrow_feerate_range only shrinks the interval. -/

/-- C8: for every feerate range, fee and multiplier, narrow_feerate_range
returns a range with new min at least the old min and new max at most the
old max. -/
theorem c8_narrow_feerate_range_shrinks (r : feerate_range) (fee multiplier : Nat) :
    r.min ≤ (narrow_feerate_range r fee multiplier).min
      ∧ (narrow_feerate_range r fee multiplier).max ≤ r.max := by
  have hmin : ∀ (a b : Nat), a ≤ if a < b then b else a := fun a b => by
    split <;> omega
  have hmax : ∀ (a b : Nat), (if b < a then b else a) ≤ a := fun a b => by
    split <;> omega
  exact ⟨hmin _ _, hmax _ _⟩

/-!  Claim C1: all_irrevocably_resolved ignores unresolved outputs, so the
loop can exit while an output is still unresolved. -/

/-- An unresolved tracked output carrying a pending sweep proposal, the
normal state of a delayed to-us output early in the loop. -/
def c1_out : tracked_output :=
  propose_resolution
    (new_tracked_output 1 0 tx_type.OUR_UNILATERAL 0 1000
      output_type.DELAYED_OUTPUT_TO_US)
    (some 7) 5 tx_type.OUR_UNILATERAL_TO_US_RETURN_TO_WALLET

/-- C1 (code bug evidence): on a store holding one tracked output that has
no resolution at all, all_irrevocably_resolved already returns true, so
wait_for_resolved exits although the output is neither resolved nor at
depth 100; the claimed predicate (resolved and depth at least 100) is false
for that output. -/
theorem c1_loop_exits_with_unresolved_output :
    all_irrevocably_resolved [c1_out] = true
      ∧ c1_out.resolved = none
      ∧ resolved_at_depth100 c1_out = false := by
  refine ⟨rfl, rfl, rfl⟩

/-- proposal_meets_depth: a proposal with no tx means "ignore after depth";
with a tx the engine emits onchain_broadcast_tx and waits for a later spend
notification, leaving the store unchanged.  In the C code the proposal is
dereferenced unconditionally; callers guarantee it exists, and the none case
here (returning the output unchanged) is unreachable from tx_new_depth. -/
def proposal_meets_depth (out : tracked_output) : tracked_output :=
  match out.proposal with
  | some p => if p.tx = none then ignore_output out else out
  | none => out

/-- The body of tx_new_depth for one tracked output: a resolved output whose
resolving txid matches gets its depth overwritten with the reported depth;
an unresolved output whose own txid matches and whose proposal depth is met
fires proposal_meets_depth. -/
def tx_new_depth_one (txid depth : Nat) (o : tracked_output) : tracked_output :=
  match o.resolved with
  | some r =>
    if r.txid = txid then { o with resolved := some ⟨r.txid, depth, r.tx_type⟩ }
    else o
  | none =>
    match o.proposal with
    | some p =>
      if o.txid = txid ∧ p.depth_required ≤ depth then proposal_meets_depth o
      else o
    | none => o

/-- tx_new_depth: apply the depth update to every tracked output. -/
def tx_new_depth (outs : List tracked_output) (txid depth : Nat) :
    List tracked_output :=
  outs.map (tx_new_depth_one txid depth)

/-!  Claim C5: the code overwrites the stored depth with whatever the parent
reports, so a smaller reported depth decreases it; monotonicity only holds
under the §5 assumption that the parent delivers non-decreasing depths. -/

/-- A tracked output already resolved at depth 50 by txid 9. -/
def c5_out50 : tracked_output :=
  { tx_type := tx_type.FUNDING_TRANSACTION, txid := 3, tx_blockheight := 0,
    outnum := 0, satoshi := 500, output_type := output_type.FUNDING_OUTPUT,
    proposal := none, resolved := some ⟨9, 50, tx_type.MUTUAL_CLOSE⟩ }

/-- C5 counterexample: a depth update for txid 9 reporting depth 10 rewinds
the stored depth from 50 to 10, so a depth update does not only increase
resolution depth. -/
theorem c5_depth_update_can_decrease :
    (tx_new_depth [c5_out50] 9 10)
      = [{ c5_out50 with resolved := some ⟨9, 10, tx_type.MUTUAL_CLOSE⟩ }]
      ∧ ¬ (50 ≤ 10) := by
  exact ⟨rfl, by omega⟩

/-- C5 amended: tx_new_depth never un-resolves an output and preserves the
resolving txid and tx type; the stored depth becomes the reported depth for
the matching txid, hence is non-decreasing provided the parent reports a
depth no smaller than the stored one (the spec §5 delivery assumption). -/
theorem c5_monotone_under_monotone_updates
    (outs : List tracked_output) (txid depth : Nat)
    (o : tracked_output) (r : resolution)
    (hmem : o ∈ outs) (hres : o.resolved = some r)
    (hmono : r.txid = txid → r.depth ≤ depth) :
    ∃ r2, (tx_new_depth_one txid depth o).resolved = some r2
      ∧ r.depth ≤ r2.depth ∧ r2.txid = r.txid ∧ r2.tx_type = r.tx_type
      ∧ tx_new_depth_one txid depth o ∈ tx_new_depth outs txid depth := by
  have hmem2 : tx_new_depth_one txid depth o ∈ tx_new_depth outs txid depth :=
    List.mem_map_of_mem _ hmem
  unfold tx_new_depth_one
  rw [hres]
  by_cases h : r.txid = txid
  · refine ⟨⟨r.txid, depth, r.tx_type⟩, ?_, hmono h, rfl, rfl, ?_⟩
    · simp [h]
    · simpa [tx_new_depth_one, hres, h] using hmem2
  · refine ⟨r, ?_, le_refl _, rfl, rfl, ?_⟩
    · simp [h, hres]
    · simpa [tx_new_depth_one, hres, h] using hmem2

/-- Witness for amended C5: updating txid 9 to depth 60 raises the stored
depth of the concrete resolved output from 50 to 60 and keeps it resolved. -/
theorem c5_monotone_witness :
    ∃ r2, (tx_new_depth_one 9 60 c5_out50).resolved = some r2
      ∧ 50 ≤ r2.depth ∧ r2.txid = 9 ∧ r2.tx_type = tx_type.MUTUAL_CLOSE
      ∧ tx_new_depth_one 9 60 c5_out50 ∈ tx_new_depth [c5_out50] 9 60 :=
  c5_monotone_under_monotone_updates [c5_out50] 9 60 c5_out50
    ⟨9, 50, tx_type.MUTUAL_CLOSE⟩ (List.mem_singleton.mpr rfl) rfl
    (fun _ => by decide)

/-!  tx_to_us (single-stage sweep) and claim C7. -/

/-- tx_to_us: one input, one P2WPKH output to our wallet key.  The weight
measure of the skeleton (measure_tx_cost) is external and is the txcost
parameter; the fee adds the witness overhead 1 + 3, a worst-case 73-byte
signature and the witness script length.  The result is the list of output
amounts of the built sweep (empty when the output was eliminated). -/
def tx_to_us (satoshi feerate dust_limit txcost wscript_len : Nat) : List Nat :=
  let fee := feerate * (txcost + 1 + 3 + 73 + 0 + wscript_len) / 1000
  if satoshi < dust_limit + fee then [] else [satoshi - fee]

/-- C7 counterexample: with feerate 1000, txcost 200 and wscript length 80
the fee is 357; on an input of exactly dust_limit + fee = 546 + 357 = 903
satoshi the claim says the output is dropped (input less than or equal to
dust + fee), but the code keeps an output of exactly the dust limit. -/
theorem c7_equality_not_dropped :
    903 ≤ 546 + 1000 * (200 + 1 + 3 + 73 + 0 + 80) / 1000
      ∧ tx_to_us 903 1000 546 200 80 = [546] := by
  exact ⟨by norm_num, rfl⟩

/-- C7 amended: the output is dropped exactly when the input amount is
strictly less than dust_limit + fee; otherwise the single output carries
input - fee, which is then at least the dust limit. -/
theorem c7_dust_check_is_strict (satoshi feerate dust_limit txcost wscript_len : Nat) :
    (tx_to_us satoshi feerate dust_limit txcost wscript_len = []
       ↔ satoshi < dust_limit + feerate * (txcost + 1 + 3 + 73 + 0 + wscript_len) / 1000)
    ∧ (dust_limit + feerate * (txcost + 1 + 3 + 73 + 0 + wscript_len) / 1000 ≤ satoshi
       → tx_to_us satoshi feerate dust_limit txcost wscript_len
           = [satoshi - feerate * (txcost + 1 + 3 + 73 + 0 + wscript_len) / 1000]
         ∧ dust_limit ≤ satoshi - feerate * (txcost + 1 + 3 + 73 + 0 + wscript_len) / 1000) := by
  unfold tx_to_us
  dsimp only
  split <;> rename_i h
  · exact ⟨by simp [h], fun hle => absurd hle (by omega)⟩
  · exact ⟨by simp [h], fun _ => ⟨rfl, by omega⟩⟩

/-- Witness for amended C7 at input 1000 (above dust + fee): the output is
kept and carries 1000 - 357 = 643 satoshi, at least the 546 dust limit. -/
theorem c7_dust_check_witness :
    tx_to_us 1000 1000 546 200 80
        = [1000 - 1000 * (200 + 1 + 3 + 73 + 0 + 80) / 1000]
      ∧ 546 ≤ 1000 - 1000 * (200 + 1 + 3 + 73 + 0 + 80) / 1000 :=
  (c7_dust_check_is_strict 1000 1000 546 200 80).2 (by norm_num)

/-!  is_mutual_close and claim C9. -/

/-- The loop of is_mutual_close: walk the outputs in order, letting each of
the two closing scriptpubkeys match at most once ("To be paranoid, we only
let each one match once."). -/
def is_mutual_close_go (l r : Nat) : List Nat → Bool → Bool → Bool
| [], _, _ => true
| s :: rest, local_matched, remote_matched =>
  if s = l ∧ local_matched = false then
    is_mutual_close_go l r rest true remote_matched
  else if s = r ∧ remote_matched = false then
    is_mutual_close_go l r rest local_matched true
  else false

/-- is_mutual_close: the tx is a mutual close when every output script is
accounted for by the two closing scriptpubkeys. -/
def is_mutual_close (outputs : List Nat)
    (local_scriptpubkey remote_scriptpubkey : Nat) : Bool :=
  is_mutual_close_go local_scriptpubkey remote_scriptpubkey outputs false false

/-- The spec side of C9, stated from the spec words: every output pays one
of the two closing scriptpubkeys and each scriptpubkey is matched by at most
one output, i.e. the multiset of output scripts is contained in the
two-element multiset of the closing scripts. -/
def mutual_close_spec (outputs : List Nat) (l r : Nat) : Prop :=
  (outputs : Multiset Nat) ≤ {l, r}

/-- Counting characterisation of the greedy matching loop: it succeeds
exactly when every script occurs no more often than the still-unmatched
closing scripts can absorb. -/
theorem is_mutual_close_go_iff (l r : Nat) :
    ∀ (outputs : List Nat) (lm rm : Bool),
      is_mutual_close_go l r outputs lm rm = true ↔
        ∀ a : Nat, outputs.count a ≤
          (if a = l ∧ lm = false then 1 else 0)
          + (if a = r ∧ rm = false then 1 else 0) := by
  intro outputs
  induction outputs with
  | nil => intro lm rm; simp [is_mutual_close_go]
  | cons s rest ih =>
    intro lm rm
    simp only [is_mutual_close_go]
    split
    · rename_i h1
      obtain ⟨hs, hlm⟩ := h1
      subst hs; subst hlm
      rw [ih]
      refine forall_congr' fun a => ?_
      rw [List.count_cons]
      simp only [Bool.true_eq_false, and_false, if_false, Bool.false_eq_true,
        eq_self_iff_true, and_true, beq_iff_eq]
      split_ifs <;> omega
    · split
      · rename_i h1 h2
        obtain ⟨hs, hrm⟩ := h2
        subst hs; subst hrm
        rw [ih]
        refine forall_congr' fun a => ?_
        rw [List.count_cons]
        simp only [Bool.true_eq_false, and_false, if_false, Bool.false_eq_true,
          eq_self_iff_true, and_true, beq_iff_eq]
        split_ifs <;> omega
      · rename_i h1 h2
        simp only [Bool.false_eq_true, false_iff]
        intro h
        have hc := h s
        rw [List.count_cons] at hc
        simp [h1, h2] at hc

/-- C9: is_mutual_close is true iff every output pays one of the two
closing scriptpubkeys with each scriptpubkey matched by at most one
output. -/
theorem c9_is_mutual_close_iff_spec (outputs : List Nat) (l r : Nat) :
    is_mutual_close outputs l r = true ↔ mutual_close_spec outputs l r := by
  unfold is_mutual_close mutual_close_spec
  rw [is_mutual_close_go_iff, Multiset.le_iff_count]
  refine forall_congr' fun a => ?_
  rw [Multiset.insert_eq_cons, Multiset.count_cons, Multiset.count_singleton,
    Multiset.coe_count]
  by_cases hal : a = l <;> by_cases har : a = r <;> simp [hal, har] <;> omega

/-!  resolve_our_htlc_ourcommit: brute-forcing the feerate (claim C3). -/

/-- Modelled from the spec: htlc_timeout_fee lives in lightningd/htlc_tx.h,
which is not part of this repository slice; the spec (§4.6a, §6) and the
BOLT #3 quote inside resolve_our_htlc_ourcommit fix it as
feerate_per_kw * 663 / 1000, rounding down. -/
def htlc_timeout_fee (feerate_per_kw : Nat) : Nat :=
  feerate_per_kw * 663 / 1000

/-- The feerate loop of resolve_our_htlc_ourcommit: iterate i from the range
max down to the range min; skip fees larger than the output value and fees
equal to the previously tried fee; stop at the first i whose implied fee
makes the counterparty signature verify (check_tx_sig is the boolean oracle
sigOK on the fee, the only datum of the tx that varies).  prev_fee starts at
UINT64_MAX; fuel counts the remaining iterations of the s64 loop counter. -/
def scan_feerates (sigOK : Nat → Bool) (satoshi minrate : Nat) :
    Nat → Nat → Nat → Option Nat
| 0, _, _ => none
| fuel + 1, i, prev_fee =>
  if i < minrate then none
  else if satoshi < htlc_timeout_fee i then
    scan_feerates sigOK satoshi minrate fuel (i - 1) prev_fee
  else if htlc_timeout_fee i = prev_fee then
    scan_feerates sigOK satoshi minrate fuel (i - 1) prev_fee
  else if sigOK (htlc_timeout_fee i) then some i
  else scan_feerates sigOK satoshi minrate fuel (i - 1) (htlc_timeout_fee i)

/-- resolve_our_htlc_ourcommit: on success at feerate i the range is
narrowed with multiplier 663 and the signed HTLC-timeout tx (abstracted by
its txid t) is proposed at block cltv_expiry with type
OUR_HTLC_TIMEOUT_TO_US; finding no feerate is status_failed (none). -/
def resolve_our_htlc_ourcommit (out : tracked_output) (cltv_expiry : Nat)
    (r : feerate_range) (sigOK : Nat → Bool) (t : Nat) :
    Option (feerate_range × tracked_output) :=
  match scan_feerates sigOK out.satoshi r.min (r.max + 1 - r.min) r.max (U64 - 1) with
  | none => none
  | some i =>
    some (narrow_feerate_range r (htlc_timeout_fee i) 663,
          propose_resolution_at_block out (some t) cltv_expiry
            tx_type.OUR_HTLC_TIMEOUT_TO_US)

/-- If F is the unique feerate in the scanned window whose implied fee
matches the signature, the descending scan stops exactly at F. -/
theorem scan_feerates_finds (sigOK : Nat → Bool) (satoshi minrate mx F : Nat)
    (hminF : minrate ≤ F)
    (huniq : ∀ k, minrate ≤ k → k ≤ mx →
        htlc_timeout_fee k = htlc_timeout_fee F → k = F)
    (hsig : ∀ g, sigOK g = true ↔ g = htlc_timeout_fee F)
    (hsat : htlc_timeout_fee F ≤ satoshi)
    (hbig : htlc_timeout_fee F < U64 - 1) :
    ∀ fuel i prev, F ≤ i → i ≤ mx → fuel + minrate = i + 1 →
      (prev = U64 - 1 ∨ ∃ k, F < k ∧ k ≤ mx ∧ prev = htlc_timeout_fee k) →
      scan_feerates sigOK satoshi minrate fuel i prev = some F := by
  intro fuel
  induction fuel with
  | zero =>
    intro i prev hFi himx hfuel hprev
    exfalso; omega
  | succ fuel ih =>
    intro i prev hFi himx hfuel hprev
    simp only [scan_feerates]
    rw [if_neg (by omega : ¬ i < minrate)]
    by_cases hiF : i = F
    · subst hiF
      rw [if_neg (by omega : ¬ satoshi < htlc_timeout_fee i)]
      have hne : htlc_timeout_fee i ≠ prev := by
        rcases hprev with h | ⟨k, hk1, hk2, hk3⟩
        · omega
        · intro he
          have hkF := huniq k (by omega) hk2 (by rw [← hk3, ← he])
          omega
      rw [if_neg hne, if_pos ((hsig _).mpr rfl)]
    · have hFlt : F < i := by omega
      have hfneF : htlc_timeout_fee i ≠ htlc_timeout_fee F := fun he =>
        hiF (huniq i (by omega) himx he)
      have hrec1 : F ≤ i - 1 := by omega
      have hrec2 : i - 1 ≤ mx := by omega
      have hrec3 : fuel + minrate = (i - 1) + 1 := by omega
      by_cases h1 : satoshi < htlc_timeout_fee i
      · rw [if_pos h1]; exact ih (i - 1) prev hrec1 hrec2 hrec3 hprev
      · rw [if_neg h1]
        by_cases h2 : htlc_timeout_fee i = prev
        · rw [if_pos h2]; exact ih (i - 1) prev hrec1 hrec2 hrec3 hprev
        · rw [if_neg h2]
          have h3 : ¬ sigOK (htlc_timeout_fee i) = true := fun hs =>
            hfneF ((hsig _).mp hs)
          rw [if_neg h3]
          exact ih (i - 1) (htlc_timeout_fee i) hrec1 hrec2 hrec3
            (Or.inr ⟨i, hFlt, himx, rfl⟩)

/-- Narrowing at the fee implied by feerate F keeps F inside the range (and,
per C8, only shrinks it); the interval it clamps to has width about 3000, so
the range does not collapse to the single point F. -/
theorem narrow_feerate_range_around_feerate (r : feerate_range) (F : Nat)
    (h1 : r.min ≤ F) (h2 : F ≤ r.max) (hb : r.max + 1507 < U32) :
    r.min ≤ (narrow_feerate_range r (htlc_timeout_fee F) 663).min
    ∧ (narrow_feerate_range r (htlc_timeout_fee F) 663).max ≤ r.max
    ∧ (narrow_feerate_range r (htlc_timeout_fee F) 663).min ≤ F
    ∧ F ≤ (narrow_feerate_range r (htlc_timeout_fee F) 663).max := by
  have h32 : U32 = 4294967296 := rfl
  have h64 : U64 = 18446744073709551616 := rfl
  rw [h32] at hb
  unfold narrow_feerate_range htlc_timeout_fee
  dsimp only
  simp only [h32, h64]
  have hfeeF : F * 663 / 1000 ≤ F := by omega
  have e1 : (F * 663 / 1000 + 999) % 18446744073709551616
      = F * 663 / 1000 + 999 := Nat.mod_eq_of_lt (by omega)
  rw [e1]
  have e2 : (F * 663 / 1000 + 999) * 1000 % 18446744073709551616
      = (F * 663 / 1000 + 999) * 1000 := Nat.mod_eq_of_lt (by omega)
  rw [e2]
  have e3 : (F * 663 / 1000 + 999) * 1000 / 663 % 4294967296
      = (F * 663 / 1000 + 999) * 1000 / 663 := Nat.mod_eq_of_lt (by omega)
  rw [e3]
  have e4 : (F * 663 / 1000 - 999) * 1000 % 18446744073709551616
      = (F * 663 / 1000 - 999) * 1000 := Nat.mod_eq_of_lt (by omega)
  rw [e4]
  have e5 : (F * 663 / 1000 - 999) * 1000 / 663 % 4294967296
      = (F * 663 / 1000 - 999) * 1000 / 663 := Nat.mod_eq_of_lt (by omega)
  rw [e5]
  refine ⟨?_, ?_, ?_, ?_⟩ <;> split_ifs <;> omega

/-- C3 amended: with a signature valid at exactly the fee implied by the
unique feerate F of the range, the brute force stops at F, proposes the
timeout tx at block cltv_expiry (depth floored against the originating
blockheight) with type OUR_HTLC_TIMEOUT_TO_US, and the narrowed range still
contains F between its (possibly unchanged) bounds; the bounds only shrink
but need not collapse to F. -/
theorem c3_brute_force_finds_feerate
    (out : tracked_output) (cltv_expiry : Nat) (r : feerate_range)
    (sigOK : Nat → Bool) (t F : Nat)
    (h1 : r.min ≤ F) (h2 : F ≤ r.max) (hb : r.max + 1507 < U32)
    (huniq : ∀ k, r.min ≤ k → k ≤ r.max →
        htlc_timeout_fee k = htlc_timeout_fee F → k = F)
    (hsig : ∀ g, sigOK g = true ↔ g = htlc_timeout_fee F)
    (hsat : htlc_timeout_fee F ≤ out.satoshi) :
    resolve_our_htlc_ourcommit out cltv_expiry r sigOK t =
      some (narrow_feerate_range r (htlc_timeout_fee F) 663,
            propose_resolution_at_block out (some t) cltv_expiry
              tx_type.OUR_HTLC_TIMEOUT_TO_US)
    ∧ scan_feerates sigOK out.satoshi r.min (r.max + 1 - r.min) r.max (U64 - 1)
        = some F
    ∧ r.min ≤ (narrow_feerate_range r (htlc_timeout_fee F) 663).min
    ∧ (narrow_feerate_range r (htlc_timeout_fee F) 663).max ≤ r.max
    ∧ (narrow_feerate_range r (htlc_timeout_fee F) 663).min ≤ F
    ∧ F ≤ (narrow_feerate_range r (htlc_timeout_fee F) 663).max
    ∧ (propose_resolution_at_block out (some t) cltv_expiry
         tx_type.OUR_HTLC_TIMEOUT_TO_US).proposal
        = some ⟨some t,
            if cltv_expiry < out.tx_blockheight then 0
            else cltv_expiry - out.tx_blockheight,
            tx_type.OUR_HTLC_TIMEOUT_TO_US⟩ := by
  have hfee : htlc_timeout_fee F ≤ F := by unfold htlc_timeout_fee; omega
  have hU : U32 ≤ U64 - 1 := by decide
  have hbig : htlc_timeout_fee F < U64 - 1 := by omega
  have hscan := scan_feerates_finds sigOK out.satoshi r.min r.max F h1 huniq
    hsig hsat hbig (r.max + 1 - r.min) r.max (U64 - 1) h2 (le_refl _)
    (by omega) (Or.inl rfl)
  have hnarrow := narrow_feerate_range_around_feerate r F h1 h2 hb
  refine ⟨?_, hscan, hnarrow.1, hnarrow.2.1, hnarrow.2.2.1, hnarrow.2.2.2, rfl⟩
  unfold resolve_our_htlc_ourcommit
  rw [hscan]

/-- The concrete OUR_HTLC output used on claim C3 (1000 satoshi at
blockheight 0). -/
def c3_out : tracked_output :=
  new_tracked_output 11 0 tx_type.OUR_UNILATERAL 0 1000 output_type.OUR_HTLC

/-- The concrete signature oracle for claim C3: valid exactly at fee 6, the
fee implied by feerate 10 (10 * 663 / 1000 = 6). -/
def c3_sigOK : Nat → Bool := fun g => g == 6

/-- C3 counterexample: with range [0, 20] and a signature valid at exactly
the fee of the unique matching feerate F = 10, the loop stops at 10 and
proposes at block 150, but narrow_feerate_range leaves the range at
[0, 20]: min and max are not both equal to F. -/
theorem c3_feerate_range_not_pinned :
    (∀ i, i ≤ 20 → htlc_timeout_fee i = htlc_timeout_fee 10 → i = 10)
    ∧ htlc_timeout_fee 10 ≤ c3_out.satoshi
    ∧ resolve_our_htlc_ourcommit c3_out 150 ⟨0, 20⟩ c3_sigOK 99
        = some (⟨0, 20⟩,
            propose_resolution_at_block c3_out (some 99) 150
              tx_type.OUR_HTLC_TIMEOUT_TO_US)
    ∧ ¬ ((0 : Nat) = 10 ∧ (20 : Nat) = 10) := by
  exact ⟨by decide, by decide, by decide, by decide⟩

/-- Witness for amended C3 at the concrete instance: the call returns the
narrowed range and the proposal at block 150. -/
theorem c3_brute_force_witness :
    resolve_our_htlc_ourcommit c3_out 150 ⟨0, 20⟩ c3_sigOK 99 =
      some (narrow_feerate_range ⟨0, 20⟩ (htlc_timeout_fee 10) 663,
            propose_resolution_at_block c3_out (some 99) 150
              tx_type.OUR_HTLC_TIMEOUT_TO_US) :=
  (c3_brute_force_finds_feerate c3_out 150 ⟨0, 20⟩ c3_sigOK 99 10
    (by decide) (by decide) (by decide)
    (fun k _ hk hf =>
      (by decide : ∀ k, k ≤ 20 →
          htlc_timeout_fee k = htlc_timeout_fee 10 → k = 10) k hk hf)
    (fun g => by simp [c3_sigOK, htlc_timeout_fee])
    (by decide)).1

/-!  The two unilateral-close handlers.  Key and script derivation are
external crypto: the derived to-local/to-remote scripts and the HTLC witness
scripts enter the model as abstract script identifiers.  The p2wsh/sha256
wrapping compared by match_htlc_output is an injective external encoding and
is modelled as the identity on identifiers. -/

/-- Which matcher accounted for a commitment output (audit trail for the
single-shot property of claim C4). -/
inductive matcher
| mLocal
| mRemote
| mHtlc (j : Nat)
deriving DecidableEq

/-- The C pattern "script[X] && scripteq(output.script, script[X])": a
nullified matcher never matches. -/
def script_matches (os : Option Nat) (s : Nat) : Bool :=
  match os with
  | some t => s = t
  | none => false

/-- match_htlc_output: index of the first non-nullified HTLC script whose
(p2wsh of the) script equals the output script; -1 (none) if no match. -/
def match_htlc_output (s : Nat) : List (Option Nat) → Option Nat
| [] => none
| some t :: rest =>
  if s = t then some 0 else (match_htlc_output s rest).map Nat.succ
| none :: rest => (match_htlc_output s rest).map Nat.succ

/-- resolve_our_htlc_theircommit: a single-stage sweep built by tx_to_us
(abstracted by its txid t) proposed at the cltv_expiry of the stub it is
handed, with type OUR_HTLC_TIMEOUT_TO_US. -/
def resolve_our_htlc_theircommit (out : tracked_output) (htlc : htlc_stub)
    (t : Nat) : tracked_output :=
  propose_resolution_at_block out (some t) htlc.cltv_expiry
    tx_type.OUR_HTLC_TIMEOUT_TO_US

/-- The mutable state of a unilateral-close handler walking the commitment
outputs: the three matchers (nullified once matched), the feerate range, the
HTLC-signature cursor, the store of tracked outputs, and the audit trail of
which matcher accounted for each output. -/
structure handler_state where
  script_local : Option Nat
  script_remote : Option Nat
  htlc_scripts : List (Option Nat)
  frange : feerate_range
  sig_idx : Nat
  outs : List tracked_output
  matched : List matcher
deriving DecidableEq

/-- The per-output loop of handle_our_unilateral.  Outputs are
(script, amount) pairs visited in order; i is the output index; sigchk k is
the signature oracle for the k-th counterparty HTLC signature (the cursor
advances once per LOCAL-owned HTLC); sweeptx i is the txid of the sweep tx
built for output i.  none = status_failed. -/
def handle_our_unilateral_go (txid tx_blockheight to_self_delay : Nat)
    (htlcs : List htlc_stub) (sigchk : Nat → Nat → Bool) (sweeptx : Nat → Nat) :
    List (Nat × Nat) → Nat → handler_state → Option handler_state
| [], _, st => some st
| (s, amount) :: rest, i, st =>
  if script_matches st.script_local s then
    handle_our_unilateral_go txid tx_blockheight to_self_delay htlcs sigchk
      sweeptx rest (i + 1)
      { st with script_local := none,
                outs := st.outs ++
                  [propose_resolution
                    (new_tracked_output txid tx_blockheight
                      tx_type.OUR_UNILATERAL i amount
                      output_type.DELAYED_OUTPUT_TO_US)
                    (some (sweeptx i)) to_self_delay
                    tx_type.OUR_UNILATERAL_TO_US_RETURN_TO_WALLET],
                matched := st.matched ++ [matcher.mLocal] }
  else if script_matches st.script_remote s then
    handle_our_unilateral_go txid tx_blockheight to_self_delay htlcs sigchk
      sweeptx rest (i + 1)
      { st with script_remote := none,
                outs := st.outs ++
                  [ignore_output
                    (new_tracked_output txid tx_blockheight
                      tx_type.OUR_UNILATERAL i amount
                      output_type.OUTPUT_TO_THEM)],
                matched := st.matched ++ [matcher.mRemote] }
  else
    match match_htlc_output s st.htlc_scripts with
    | none => none
    | some j =>
      if (htlcs.getD j default).owner = side.LOCAL then
        match resolve_our_htlc_ourcommit
            (new_tracked_output txid tx_blockheight tx_type.OUR_UNILATERAL i
              amount output_type.OUR_HTLC)
            (htlcs.getD j default).cltv_expiry st.frange (sigchk st.sig_idx)
            (sweeptx i) with
        | none => none
        | some (r2, out2) =>
          handle_our_unilateral_go txid tx_blockheight to_self_delay htlcs
            sigchk sweeptx rest (i + 1)
            { st with htlc_scripts := st.htlc_scripts.set j none,
                      frange := r2,
                      sig_idx := st.sig_idx + 1,
                      outs := st.outs ++ [out2],
                      matched := st.matched ++ [matcher.mHtlc j] }
      else
        handle_our_unilateral_go txid tx_blockheight to_self_delay htlcs
          sigchk sweeptx rest (i + 1)
          { st with htlc_scripts := st.htlc_scripts.set j none,
                    outs := st.outs ++
                      [propose_resolution_at_block
                        (new_tracked_output txid tx_blockheight
                          tx_type.OUR_UNILATERAL i amount
                          output_type.THEIR_HTLC)
                        none (htlcs.getD j default).cltv_expiry
                        tx_type.THEIR_HTLC_TIMEOUT_TO_THEM],
                    matched := st.matched ++ [matcher.mHtlc j] }

/-- handle_our_unilateral: resolve the funding output by OUR_UNILATERAL,
seed the feerate range from the commitment, derive the matchers, then match
every commitment output in order. -/
def handle_our_unilateral (txid tx_blockheight : Nat) (funding : tracked_output)
    (script_local script_remote : Nat) (htlcs : List htlc_stub)
    (htlc_scripts : List Nat) (to_self_delay : Nat)
    (sigchk : Nat → Nat → Bool) (sweeptx : Nat → Nat)
    (outputs : List (Nat × Nat)) : Option handler_state :=
  handle_our_unilateral_go txid tx_blockheight to_self_delay htlcs sigchk
    sweeptx outputs 0
    { script_local := some script_local,
      script_remote := some script_remote,
      htlc_scripts := htlc_scripts.map some,
      frange := init_feerate_range funding.satoshi (outputs.map Prod.snd),
      sig_idx := 0,
      outs := [resolved_by_other funding txid tx_type.OUR_UNILATERAL],
      matched := [] }

/-- The per-output loop of handle_their_unilateral.  Two deliberate
fidelity points to the C source: the script[REMOTE] branch does NOT nullify
its matcher, and the LOCAL-owned HTLC branch hands the resolver the stub at
the OUTPUT index i (source reads htlcs[i]; out-of-range i is an
out-of-bounds read in C, modelled by getD with the default stub). -/
def handle_their_unilateral_go (txid tx_blockheight : Nat)
    (htlcs : List htlc_stub) (sweeptx : Nat → Nat) :
    List (Nat × Nat) → Nat → handler_state → Option handler_state
| [], _, st => some st
| (s, amount) :: rest, i, st =>
  if script_matches st.script_local s then
    handle_their_unilateral_go txid tx_blockheight htlcs sweeptx rest (i + 1)
      { st with script_local := none,
                outs := st.outs ++
                  [ignore_output
                    (new_tracked_output txid tx_blockheight
                      tx_type.THEIR_UNILATERAL i amount
                      output_type.OUTPUT_TO_US)],
                matched := st.matched ++ [matcher.mLocal] }
  else if script_matches st.script_remote s then
    handle_their_unilateral_go txid tx_blockheight htlcs sweeptx rest (i + 1)
      { st with outs := st.outs ++
                  [ignore_output
                    (new_tracked_output txid tx_blockheight
                      tx_type.THEIR_UNILATERAL i amount
                      output_type.DELAYED_OUTPUT_TO_THEM)],
                matched := st.matched ++ [matcher.mRemote] }
  else
    match match_htlc_output s st.htlc_scripts with
    | none => none
    | some j =>
      if (htlcs.getD j default).owner = side.LOCAL then
        handle_their_unilateral_go txid tx_blockheight htlcs sweeptx rest (i + 1)
          { st with htlc_scripts := st.htlc_scripts.set j none,
                    outs := st.outs ++
                      [resolve_our_htlc_theircommit
                        (new_tracked_output txid tx_blockheight
                          tx_type.THEIR_UNILATERAL i amount
                          output_type.OUR_HTLC)
                        (htlcs.getD i default)
                        (sweeptx i)],
                    matched := st.matched ++ [matcher.mHtlc j] }
      else
        handle_their_unilateral_go txid tx_blockheight htlcs sweeptx rest (i + 1)
          { st with htlc_scripts := st.htlc_scripts.set j none,
                    outs := st.outs ++
                      [propose_resolution_at_block
                        (new_tracked_output txid tx_blockheight
                          tx_type.THEIR_UNILATERAL i amount
                          output_type.THEIR_HTLC)
                        none (htlcs.getD j default).cltv_expiry
                        tx_type.THEIR_HTLC_TIMEOUT_TO_THEM],
                    matched := st.matched ++ [matcher.mHtlc j] }

/-- handle_their_unilateral: as handle_our_unilateral, mirrored. -/
def handle_their_unilateral (txid tx_blockheight : Nat)
    (funding : tracked_output) (script_local script_remote : Nat)
    (htlcs : List htlc_stub) (htlc_scripts : List Nat)
    (sweeptx : Nat → Nat) (outputs : List (Nat × Nat)) :
    Option handler_state :=
  handle_their_unilateral_go txid tx_blockheight htlcs sweeptx outputs 0
    { script_local := some script_local,
      script_remote := some script_remote,
      htlc_scripts := htlc_scripts.map some,
      frange := init_feerate_range funding.satoshi (outputs.map Prod.snd),
      sig_idx := 0,
      outs := [resolved_by_other funding txid tx_type.THEIR_UNILATERAL],
      matched := [] }

/-!  Claim C2: which HTLC stub reaches the their-commit resolver. -/

/-- Two LOCAL-owned HTLC stubs with distinct cltv expiries (100 and 200). -/
def c2_htlcs : List htlc_stub := [⟨100, 0, side.LOCAL⟩, ⟨200, 1, side.LOCAL⟩]

/-- The funding tracked output used by the concrete handler runs. -/
def c2_funding : tracked_output :=
  new_tracked_output 50 0 tx_type.FUNDING_TRANSACTION 0 10000
    output_type.FUNDING_OUTPUT

/-- A their-unilateral close whose single commitment output (index 0)
matches HTLC witness script j = 1 (script id 20); the to-us/to-them scripts
are 1 and 2. -/
def c2_run : Option handler_state :=
  handle_their_unilateral 7 0 c2_funding 1 2 c2_htlcs [10, 20]
    (fun _ => 0) [(20, 5000)]

/-- C2 (code bug evidence): commitment output 0 matches HTLC script j = 1
(owner LOCAL), but the proposal attached by the resolver is at block
htlcs[0].cltv_expiry = 100 (the stub at the OUTPUT index), not at
htlcs[1].cltv_expiry = 200 as the claim requires. -/
theorem c2_theircommit_resolver_gets_wrong_stub :
    c2_run.map handler_state.matched = some [matcher.mHtlc 1]
    ∧ c2_run.map (fun st => (st.outs.getD 1 default).output_type)
        = some output_type.OUR_HTLC
    ∧ c2_run.map (fun st => (st.outs.getD 1 default).proposal)
        = some (some ⟨some 0, (c2_htlcs.getD 0 default).cltv_expiry,
                      tx_type.OUR_HTLC_TIMEOUT_TO_US⟩)
    ∧ (c2_htlcs.getD 0 default).cltv_expiry = 100
    ∧ (c2_htlcs.getD 1 default).cltv_expiry = 200 := by
  exact ⟨rfl, rfl, rfl, rfl, rfl⟩

/-!  Claim C4: matchers being single-shot. -/

/-- A their-unilateral close with two commitment outputs both paying the
to-them delayed script (id 2). -/
def c4_run : Option handler_state :=
  handle_their_unilateral 8 0 c2_funding 1 2 [] [] (fun n => n + 100)
    [(2, 400), (2, 600)]

/-- C4 (code bug evidence): in handle_their_unilateral the script[REMOTE]
matcher accounts for BOTH outputs and is still armed afterwards (the branch
never nullifies it), while the mirrored handle_our_unilateral on the same
commitment nullifies it after the first output and dies on the second
(status_failed: no matcher). -/
theorem c4_remote_matcher_not_single_shot :
    c4_run.map handler_state.matched = some [matcher.mRemote, matcher.mRemote]
    ∧ c4_run.map handler_state.script_remote = some (some 2)
    ∧ handle_our_unilateral 8 0 c2_funding 1 2 [] [] 6 (fun _ _ => false)
        (fun n => n + 100) [(2, 400), (2, 600)] = none := by
  exact ⟨rfl, rfl, rfl⟩

/-!  Spend notifications (output_spent / resolved_by_proposal), claim C10. -/

/-- resolved_by_proposal: the C code dereferences out->proposal
unconditionally before checking anything; the none result models that
null-pointer dereference.  Otherwise: no tx attached means it was not our
proposal; with a tx, compare its txid to the spender and on a match mark
the output resolved by the proposal's tx type at depth 0. -/
def resolved_by_proposal (out : tracked_output) (spender : Nat) :
    Option (tracked_output × Bool) :=
  match out.proposal with
  | none => none
  | some p =>
    match p.tx with
    | none => some (out, false)
    | some ptxid =>
      if ptxid = spender then
        some ({ out with resolved := some ⟨ptxid, 0, p.tx_type⟩ }, true)
      else some (out, false)

/-- Outcome of dispatching one spend notification. -/
inductive spend_result
| ok (outs : List tracked_output)
| failed
| nullderef
deriving DecidableEq

/-- output_spent: find the first unresolved tracked output matching the
spent (txid, outnum); if resolved_by_proposal claims it, done; otherwise
dispatch on the output type (unknown_spend for our outputs, ignore for
THEIR_HTLC, status_failed for OUR_HTLC fulfillment (stub), funding re-spend
and untracked to-them outputs).  No match leaves the store unchanged (the
engine just emits unwatch_tx). -/
def output_spent_go (spend_txid spend_outnum spender : Nat) :
    List tracked_output → spend_result
| [] => spend_result.ok []
| o :: rest =>
  if o.resolved.isSome ∨ spend_outnum ≠ o.outnum ∨ spend_txid ≠ o.txid then
    match output_spent_go spend_txid spend_outnum spender rest with
    | spend_result.ok rest2 => spend_result.ok (o :: rest2)
    | r => r
  else
    match resolved_by_proposal o spender with
    | none => spend_result.nullderef
    | some (o2, true) => spend_result.ok (o2 :: rest)
    | some (_, false) =>
      match o.output_type with
      | output_type.OUTPUT_TO_US => spend_result.ok (unknown_spend o spender :: rest)
      | output_type.DELAYED_OUTPUT_TO_US => spend_result.ok (unknown_spend o spender :: rest)
      | output_type.THEIR_HTLC => spend_result.ok (o :: rest)
      | output_type.OUR_HTLC => spend_result.failed
      | output_type.FUNDING_OUTPUT => spend_result.failed
      | output_type.OUTPUT_TO_THEM => spend_result.failed
      | output_type.DELAYED_OUTPUT_TO_THEM => spend_result.failed

/-- output_spent on the whole store, given the spent outpoint
(tx->input[input_num].txid/index) and the txid of the spending tx. -/
def output_spent (outs : List tracked_output)
    (spend_txid spend_outnum spender : Nat) : spend_result :=
  output_spent_go spend_txid spend_outnum spender outs

/-- The C10 store invariant: every tracked output is resolved or carries a
proposal. -/
def resolved_or_proposed (o : tracked_output) : Prop :=
  o.resolved ≠ none ∨ o.proposal ≠ none

/-- Appending an output that satisfies the invariant preserves it. -/
theorem inv_append {l : List tracked_output} {o : tracked_output}
    (h : ∀ x ∈ l, resolved_or_proposed x) (ho : resolved_or_proposed o) :
    ∀ x ∈ l ++ [o], resolved_or_proposed x := by
  intro x hx
  rcases List.mem_append.mp hx with h1 | h1
  · exact h x h1
  · rw [List.mem_singleton.mp h1]; exact ho

/-- A successful our-commit HTLC resolution always attaches a proposal. -/
theorem resolve_our_htlc_ourcommit_proposes (out : tracked_output)
    (cltv : Nat) (r : feerate_range) (sigOK : Nat → Bool) (t : Nat)
    (r2 : feerate_range) (out2 : tracked_output)
    (h : resolve_our_htlc_ourcommit out cltv r sigOK t = some (r2, out2)) :
    out2.proposal ≠ none := by
  unfold resolve_our_htlc_ourcommit at h
  split at h
  · exact Option.noConfusion h
  · injection h with h2
    rw [Prod.mk.injEq] at h2
    rw [← h2.2]
    simp [propose_resolution_at_block, propose_resolution]

/-- The our-unilateral loop only ever appends outputs that are resolved or
carry a proposal. -/
theorem handle_our_unilateral_go_inv (txid tx_blockheight to_self_delay : Nat)
    (htlcs : List htlc_stub) (sigchk : Nat → Nat → Bool) (sweeptx : Nat → Nat) :
    ∀ (outputs : List (Nat × Nat)) (i : Nat) (st : handler_state),
      (∀ o ∈ st.outs, resolved_or_proposed o) →
      ∀ st2, handle_our_unilateral_go txid tx_blockheight to_self_delay htlcs
          sigchk sweeptx outputs i st = some st2 →
      ∀ o ∈ st2.outs, resolved_or_proposed o := by
  intro outputs
  induction outputs with
  | nil =>
    intro i st hst st2 h
    simp only [handle_our_unilateral_go] at h
    injection h with h2
    rw [← h2]; exact hst
  | cons p rest ih =>
    intro i st hst st2 h
    obtain ⟨s, amount⟩ := p
    simp only [handle_our_unilateral_go] at h
    split at h
    · exact ih (i + 1) _
        (inv_append hst (Or.inr (by simp [propose_resolution]))) st2 h
    · split at h
      · exact ih (i + 1) _
          (inv_append hst (Or.inl (by simp [ignore_output]))) st2 h
      · split at h
        · exact Option.noConfusion h
        · rename_i j
          split at h
          · split at h
            · exact Option.noConfusion h
            · rename_i r2 out2 hres
              exact ih (i + 1) _
                (inv_append hst
                  (Or.inr (resolve_our_htlc_ourcommit_proposes _ _ _ _ _ _ _ hres)))
                st2 h
          · exact ih (i + 1) _
              (inv_append hst (Or.inr (by simp [propose_resolution_at_block, propose_resolution])))
              st2 h

/-- The their-unilateral loop only ever appends outputs that are resolved
or carry a proposal. -/
theorem handle_their_unilateral_go_inv (txid tx_blockheight : Nat)
    (htlcs : List htlc_stub) (sweeptx : Nat → Nat) :
    ∀ (outputs : List (Nat × Nat)) (i : Nat) (st : handler_state),
      (∀ o ∈ st.outs, resolved_or_proposed o) →
      ∀ st2, handle_their_unilateral_go txid tx_blockheight htlcs sweeptx
          outputs i st = some st2 →
      ∀ o ∈ st2.outs, resolved_or_proposed o := by
  intro outputs
  induction outputs with
  | nil =>
    intro i st hst st2 h
    simp only [handle_their_unilateral_go] at h
    injection h with h2
    rw [← h2]; exact hst
  | cons p rest ih =>
    intro i st hst st2 h
    obtain ⟨s, amount⟩ := p
    simp only [handle_their_unilateral_go] at h
    split at h
    · exact ih (i + 1) _
        (inv_append hst (Or.inl (by simp [ignore_output]))) st2 h
    · split at h
      · exact ih (i + 1) _
          (inv_append hst (Or.inl (by simp [ignore_output]))) st2 h
      · split at h
        · exact Option.noConfusion h
        · split at h
          · exact ih (i + 1) _
              (inv_append hst
                (Or.inr (by simp [resolve_our_htlc_theircommit,
                  propose_resolution_at_block, propose_resolution])))
              st2 h
          · exact ih (i + 1) _
              (inv_append hst (Or.inr (by simp [propose_resolution_at_block, propose_resolution])))
              st2 h

/-- tx_new_depth preserves the invariant on each output: it never removes a
resolution or a proposal (ignoring an output adds a resolution). -/
theorem tx_new_depth_one_preserves (txid depth : Nat) (o : tracked_output)
    (h : resolved_or_proposed o) :
    resolved_or_proposed (tx_new_depth_one txid depth o) := by
  unfold tx_new_depth_one
  split
  · split
    · exact Or.inl (by simp)
    · exact h
  · split
    · rename_i hr p hp
      split
      · have hred : proposal_meets_depth o
            = if p.tx = none then ignore_output o else o := by
          unfold proposal_meets_depth; rw [hp]
        rw [hred]
        split
        · exact Or.inl (by simp [ignore_output])
        · exact h
      · exact h
    · exact h

/-- output_spent never hits the null dereference on an invariant store, and
the store it returns still satisfies the invariant. -/
theorem output_spent_go_safe (a b c : Nat) :
    ∀ outs : List tracked_output, (∀ o ∈ outs, resolved_or_proposed o) →
      output_spent_go a b c outs ≠ spend_result.nullderef
      ∧ ∀ outs2, output_spent_go a b c outs = spend_result.ok outs2 →
          ∀ o ∈ outs2, resolved_or_proposed o := by
  intro outs
  induction outs with
  | nil =>
    intro hinv
    refine ⟨by simp [output_spent_go], ?_⟩
    intro outs2 h2
    simp only [output_spent_go] at h2
    injection h2 with h3
    rw [← h3]; simp
  | cons o rest ih =>
    intro hinv
    have hhead : resolved_or_proposed o := hinv o (List.mem_cons_self o rest)
    have hrest := ih (fun x hx => hinv x (List.mem_cons_of_mem _ hx))
    simp only [output_spent_go]
    by_cases hcond : (o.resolved.isSome = true ∨ ¬ b = o.outnum ∨ ¬ a = o.txid)
    · rw [if_pos hcond]
      rcases hrec : output_spent_go a b c rest with outs2' | _ | _
      · refine ⟨by simp, ?_⟩
        intro outs2 h2
        injection h2 with h3
        rw [← h3]
        intro x hx
        rcases List.mem_cons.mp hx with h4 | h4
        · rw [h4]; exact hhead
        · exact hrest.2 outs2' hrec x h4
      · exact ⟨by simp, fun outs2 h2 => absurd h2 (by simp)⟩
      · exact absurd hrec hrest.1
    · rw [if_neg hcond]
      have hres : o.resolved = none := by
        rcases hh : o.resolved with _ | r
        · rfl
        · exact absurd (Or.inl (by simp [hh])) hcond
      have hprop : o.proposal ≠ none := by
        rcases hhead with h1 | h1
        · exact absurd hres h1
        · exact h1
      have hcons : ∀ (o3 : tracked_output), resolved_or_proposed o3 →
          ∀ outs2, spend_result.ok (o3 :: rest) = spend_result.ok outs2 →
          ∀ x ∈ outs2, resolved_or_proposed x := by
        intro o3 ho3 outs2 h2 x hx
        injection h2 with h3
        rw [← h3] at hx
        rcases List.mem_cons.mp hx with h4 | h4
        · rw [h4]; exact ho3
        · exact hinv x (List.mem_cons_of_mem _ h4)
      rcases hpp : o.proposal with _ | p
      · exact absurd hpp hprop
      rcases hpt : p.tx with _ | ptxid
      · -- proposal with no tx attached: fall through to the type dispatch
        rcases hty : o.output_type with _ | _ | _ | _ | _ | _ | _ <;>
          simp only [resolved_by_proposal, hpp, hpt, hty]
        · exact ⟨by simp, fun outs2 h2 => absurd h2 (by simp)⟩
        · exact ⟨by simp, fun outs2 h2 =>
            hcons _ (Or.inl (by simp [unknown_spend])) outs2 h2⟩
        · exact ⟨by simp, fun outs2 h2 => absurd h2 (by simp)⟩
        · exact ⟨by simp, fun outs2 h2 =>
            hcons _ (Or.inl (by simp [unknown_spend])) outs2 h2⟩
        · exact ⟨by simp, fun outs2 h2 => absurd h2 (by simp)⟩
        · exact ⟨by simp, fun outs2 h2 => absurd h2 (by simp)⟩
        · exact ⟨by simp, fun outs2 h2 => hcons o hhead outs2 h2⟩
      · by_cases hc : ptxid = c
        · simp only [resolved_by_proposal, hpp, hpt, if_pos hc]
          exact ⟨by simp, fun outs2 h2 =>
            hcons _ (Or.inl (by simp)) outs2 h2⟩
        · simp only [resolved_by_proposal, hpp, hpt, if_neg hc]
          rcases hty : o.output_type with _ | _ | _ | _ | _ | _ | _ <;>
            simp only [hty]
          · exact ⟨by simp, fun outs2 h2 => absurd h2 (by simp)⟩
          · exact ⟨by simp, fun outs2 h2 =>
              hcons _ (Or.inl (by simp [unknown_spend])) outs2 h2⟩
          · exact ⟨by simp, fun outs2 h2 => absurd h2 (by simp)⟩
          · exact ⟨by simp, fun outs2 h2 =>
              hcons _ (Or.inl (by simp [unknown_spend])) outs2 h2⟩
          · exact ⟨by simp, fun outs2 h2 => absurd h2 (by simp)⟩
          · exact ⟨by simp, fun outs2 h2 => absurd h2 (by simp)⟩
          · exact ⟨by simp, fun outs2 h2 => hcons o hhead outs2 h2⟩

/-- C10: both unilateral handlers hand wait_for_resolved a store in which
every tracked output is resolved or carries a proposal; depth updates and
spend dispatches preserve that invariant; and under it, dispatching a spend
notification never reaches the null dereference of out->proposal inside
resolved_by_proposal. -/
theorem c10_unresolved_outputs_carry_proposals :
    (∀ txid bh funding sl sr htlcs hscripts tsd sigchk sweeptx outputs st2,
       handle_our_unilateral txid bh funding sl sr htlcs hscripts tsd sigchk
           sweeptx outputs = some st2 →
       ∀ o ∈ st2.outs, resolved_or_proposed o)
    ∧ (∀ txid bh funding sl sr htlcs hscripts sweeptx outputs st2,
         handle_their_unilateral txid bh funding sl sr htlcs hscripts sweeptx
             outputs = some st2 →
         ∀ o ∈ st2.outs, resolved_or_proposed o)
    ∧ (∀ outs txid depth, (∀ o ∈ outs, resolved_or_proposed o) →
         ∀ o ∈ tx_new_depth outs txid depth, resolved_or_proposed o)
    ∧ (∀ outs a b c, (∀ o ∈ outs, resolved_or_proposed o) →
         output_spent outs a b c ≠ spend_result.nullderef
         ∧ ∀ outs2, output_spent outs a b c = spend_result.ok outs2 →
             ∀ o ∈ outs2, resolved_or_proposed o) := by
  refine ⟨?_, ?_, ?_, ?_⟩
  · intro txid bh funding sl sr htlcs hscripts tsd sigchk sweeptx outputs st2 h
    refine handle_our_unilateral_go_inv txid bh tsd htlcs sigchk sweeptx
      outputs 0 _ ?_ st2 h
    intro o ho
    rw [List.mem_singleton.mp ho]
    exact Or.inl (by simp [resolved_by_other])
  · intro txid bh funding sl sr htlcs hscripts sweeptx outputs st2 h
    refine handle_their_unilateral_go_inv txid bh htlcs sweeptx
      outputs 0 _ ?_ st2 h
    intro o ho
    rw [List.mem_singleton.mp ho]
    exact Or.inl (by simp [resolved_by_other])
  · intro outs txid depth h o ho
    rcases List.mem_map.mp ho with ⟨x, hx, hxo⟩
    rw [← hxo]
    exact tx_new_depth_one_preserves txid depth x (h x hx)
  · intro outs a b c h
    exact output_spent_go_safe a b c outs h

/-- Witness for C10: on a store holding one unresolved output that carries
a proposal, the spend dispatch does not hit the null dereference. -/
theorem c10_witness :
    output_spent [c1_out] 1 0 7 ≠ spend_result.nullderef :=
  (c10_unresolved_outputs_carry_proposals.2.2.2 [c1_out] 1 0 7
    (by
      intro o ho
      rw [List.mem_singleton.mp ho]
      exact Or.inr (by simp [c1_out, propose_resolution]))).1

end Onchain
